import Mathlib

set_option maxRecDepth 4000

/-!
Verification of the caching subsystem of the wordfence malware scanner
(`wordfence/util/caching.py`), shallowly embedded in Lean 4.

Values cached by the Python code are arbitrary Python objects; we embed them
as the inductive `PyValue`.  The on-disk byte representation produced by
`pickle.dumps` is embedded as `Bytes`.  The filesystem visible to a
`CacheDirectory` is an association list from paths to file states, together
with an environment oracle saying which paths fail on write and a current
timestamp; non-`FileNotFoundError` I/O failures on the read path are embedded
as the file state `FileState.ioError`.  Exceptions are embedded with
`Except CacheErr`.
-/

deriving instance DecidableEq for Except

namespace Wordfence

/-- Embedded universe of cached Python values.  `obj` covers instances of an
arbitrary named class holding one field, which is all the allow-list claims
need to observe. -/
inductive PyValue where
  | int (n : Int)
  | str (s : String)
  | pyNone
  | obj (typeName : String) (arg : PyValue)
deriving DecidableEq

/-- Type names referenced by a value's pickle byte stream. -/
def typesOf : PyValue → List String
  | .int _ => ["int"]
  | .str _ => ["str"]
  | .pyNone => ["NoneType"]
  | .obj n a => n :: typesOf a

/-- Embedded byte strings of cache files: either a well-formed pickle of a
value, or structurally malformed bytes. -/
inductive Bytes where
  | malformed
  | pickled (v : PyValue)
deriving DecidableEq

/-- `pickle.dumps` as used by `CacheDirectory._serialize_value`. -/
def pickleDumps (v : PyValue) : Bytes := .pickled v

/-- Exceptions of the caching module: `NoCachedValueException`,
`InvalidCachedValueException`, and `OSError` escaping a storage operation. -/
inductive CacheErr where
  | noCachedValue
  | invalidCachedValue
  | osError
deriving DecidableEq

/-- Modelled from the spec: the restricted deserializer `limited_deserialize`
of `wordfence/util/serialization.py`, which is not part of the sources under
review.  Per the spec it reconstructs a value from bytes and "fails with an
invalid-value condition if the byte stream references a type outside
`allowed_types` (when provided) or is structurally malformed"; when no
allow-list is given, default safe primitive types are permitted. -/
def defaultSafeTypes : List String :=
  ["int", "str", "float", "bool", "NoneType", "list", "dict", "set", "tuple"]

/-- Modelled from the spec: restricted reconstruction.  See
`defaultSafeTypes`. -/
def limitedDeserialize (b : Bytes) (allowed : Option (List String)) :
    Except CacheErr PyValue :=
  match b with
  | .malformed => .error .invalidCachedValue
  | .pickled v =>
      let allow := allowed.getD defaultSafeTypes
      if (typesOf v).all (fun t => decide (t ∈ allow)) then .ok v
      else .error .invalidCachedValue

/-- Association-list lookup, embedding Python `dict` access / the presence of
a file at a path. -/
def lookupStr {α : Type} : List (String × α) → String → Option α
  | [], _ => none
  | (k, v) :: rest, key => if k = key then some v else lookupStr rest key

/-- Association-list update, embedding `self.items[key] = value` / writing a
file at a path. -/
def setStr {α : Type} : List (String × α) → String → α → List (String × α)
  | [], key, v => [(key, v)]
  | (k, w) :: rest, key, v =>
      if k = key then (key, v) :: rest else (k, w) :: setStr rest key v

/-- Association-list removal, embedding `os.remove`. -/
def eraseStr {α : Type} : List (String × α) → String → List (String × α)
  | [], _ => []
  | (k, w) :: rest, key =>
      if k = key then eraseStr rest key else (k, w) :: eraseStr rest key

/-- `Cache.filter_value`: apply the registered filters in order. -/
def filterValue (filters : List (PyValue → PyValue)) (v : PyValue) : PyValue :=
  filters.foldl (fun acc f => f acc) v

/-! ## RuntimeCache -/

/-- `RuntimeCache`: the in-memory backend, carrying the base class's filter
list and its `items` dictionary. -/
structure RuntimeCache where
  filters : List (PyValue → PyValue) := []
  items : List (String × PyValue) := []

/-- `RuntimeCache._load`: dictionary lookup; raises `NoCachedValueException`
when absent.  `max_age` is accepted and ignored. -/
def rcLoad (rc : RuntimeCache) (key : String) (_maxAge : Option Int) :
    Except CacheErr PyValue :=
  match lookupStr rc.items key with
  | some v => .ok v
  | none => .error .noCachedValue

/-- `Cache.put` on a `RuntimeCache`: `_serialize_value` is the identity and
`_save` stores into the dictionary. -/
def rcPut (rc : RuntimeCache) (key : String) (v : PyValue) : RuntimeCache :=
  { rc with items := setStr rc.items key v }

/-- `Cache.get` on a `RuntimeCache`: load, deserialize (identity), then
apply the filter pipeline. -/
def rcGet (rc : RuntimeCache) (key : String) (maxAge : Option Int) :
    Except CacheErr PyValue :=
  match rcLoad rc key maxAge with
  | .ok v => .ok (filterValue rc.filters v)
  | .error e => .error e

/-- `RuntimeCache.purge`: reset the dictionary. -/
def rcPurge (rc : RuntimeCache) : RuntimeCache := { rc with items := [] }

/-! ## CacheDirectory -/

/-- State of one path in the embedded filesystem.  `ioError` marks a file
whose open/read raises an `OSError` other than `FileNotFoundError`. -/
inductive FileState where
  | ioError
  | present (content : Bytes) (mtime : Nat)
deriving DecidableEq

/-- The filesystem a `CacheDirectory` operates on: files by path, the paths
on which a write raises `OSError`, and the current clock reading used for
`time.time()` and as the modification time of written files. -/
structure DirFS where
  files : List (String × FileState) := []
  writeFails : List String := []
  now : Nat := 0

/-- `CacheDirectory` configuration: directory path, optional allow-list of
deserializable type names, and the base class's filter list. -/
structure CacheDirectory where
  path : String
  allowed : Option (List String) := none
  filters : List (PyValue → PyValue) := []

/-- `'0'..'9','A'..'F'`: one base-16 digit, as produced by
`base64.b16encode`. -/
def hexDigitChar : Nat → Char
  | 0 => '0' | 1 => '1' | 2 => '2' | 3 => '3' | 4 => '4'
  | 5 => '5' | 6 => '6' | 7 => '7' | 8 => '8' | 9 => '9'
  | 10 => 'A' | 11 => 'B' | 12 => 'C' | 13 => 'D' | 14 => 'E' | _ => 'F'

/-- `base64.b16encode`: two uppercase hex digits per byte. -/
def b16encodeBytes : List Nat → List Char
  | [] => []
  | b :: rest => hexDigitChar (b / 16) :: hexDigitChar (b % 16) :: b16encodeBytes rest

/-- UTF-8 encoding of one Unicode scalar value, as `str.encode('utf-8')`
produces for one character. -/
def utf8EncodeChar (c : Char) : List Nat :=
  let n := c.toNat
  if n < 0x80 then [n]
  else if n < 0x800 then [0xC0 + n / 64, 0x80 + n % 64]
  else if n < 0x10000 then [0xE0 + n / 4096, 0x80 + n / 64 % 64, 0x80 + n % 64]
  else [0xF0 + n / 262144, 0x80 + n / 4096 % 64, 0x80 + n / 64 % 64, 0x80 + n % 64]

/-- `key.encode('utf-8')`. -/
def utf8Encode : List Char → List Nat
  | [] => []
  | c :: cs => utf8EncodeChar c ++ utf8Encode cs

/-- `CacheDirectory._get_path`: `os.path.join(self.path,
base64.b16encode(key.encode('utf-8')).decode('utf-8'))`. -/
def getPath (c : CacheDirectory) (key : String) : String :=
  c.path ++ "/" ++ String.mk (b16encodeBytes (utf8Encode key.data))

/-- `CacheDirectory._save`: open the key's file for writing and write the
serialized bytes under an exclusive lock; an `OSError` from the filesystem
propagates. -/
def dirSave (c : CacheDirectory) (fs : DirFS) (key : String) (content : Bytes) :
    Except CacheErr DirFS :=
  let path := getPath c key
  if path ∈ fs.writeFails then .error .osError
  else .ok { fs with files := setStr fs.files path (.present content fs.now) }

/-- `Cache.put` on a `CacheDirectory`: serialize with `pickle.dumps`, then
`_save`. -/
def dirPut (c : CacheDirectory) (fs : DirFS) (key : String) (v : PyValue) :
    Except CacheErr DirFS :=
  dirSave c fs key (pickleDumps v)

/-- `CacheDirectory._is_valid`: fresh when `max_age` is absent, otherwise
when `time.time() - getmtime(path) < max_age`. -/
def dirIsValid (fs : DirFS) (mtime : Nat) (maxAge : Option Int) : Bool :=
  match maxAge with
  | none => true
  | some m => decide ((fs.now : Int) - (mtime : Int) < m)

/-- Result of `CacheDirectory._load`: the raised-or-returned outcome, the
filesystem afterwards, and whether an unexpected-error warning was logged. -/
structure LoadResult where
  result : Except CacheErr Bytes
  fs : DirFS
  logged : Bool

/-- `CacheDirectory._load`: open under a shared lock; a missing file is a
silent miss, any other `OSError` is logged and degrades to a miss; a stale
entry is removed and a miss is raised; otherwise the file's bytes are
returned. -/
def dirLoad (c : CacheDirectory) (fs : DirFS) (key : String)
    (maxAge : Option Int) : LoadResult :=
  let path := getPath c key
  match lookupStr fs.files path with
  | none => ⟨.error .noCachedValue, fs, false⟩
  | some .ioError => ⟨.error .noCachedValue, fs, true⟩
  | some (.present content mtime) =>
      if dirIsValid fs mtime maxAge then ⟨.ok content, fs, false⟩
      else ⟨.error .noCachedValue, { fs with files := eraseStr fs.files path }, false⟩

/-- Result of `Cache.get` on a `CacheDirectory`. -/
structure GetResult where
  result : Except CacheErr PyValue
  fs : DirFS
  logged : Bool

/-- `Cache.get` on a `CacheDirectory`: `_load`, then `_deserialize_value`
(that is, `limited_deserialize` with the configured allow-list), then the
filter pipeline.  Errors propagate. -/
def dirGet (c : CacheDirectory) (fs : DirFS) (key : String)
    (maxAge : Option Int) : GetResult :=
  let lr := dirLoad c fs key maxAge
  match lr.result with
  | .error e => ⟨.error e, lr.fs, lr.logged⟩
  | .ok content =>
      match limitedDeserialize content c.allowed with
      | .error e => ⟨.error e, lr.fs, lr.logged⟩
      | .ok v => ⟨.ok (filterValue c.filters v), lr.fs, lr.logged⟩

/-! ## Cacheable -/

/-- `Cacheable`: key, initializer and optional max age. -/
structure Cacheable where
  key : String
  initializer : Unit → PyValue
  maxAge : Option Int := none

/-- Result of `Cacheable.get` against a `RuntimeCache`, together with the
number of times the initializer was invoked during the call. -/
structure RCGetResult where
  result : Except CacheErr PyValue
  cache : RuntimeCache
  initCalls : Nat

/-- `Cacheable.get` against a `RuntimeCache`: try `cache.get`; on
`NoCachedValueException` or `InvalidCachedValueException` compute the value
with the initializer, `cache.put` it, and return it; other exceptions
propagate. -/
def Cacheable.getRC (ca : Cacheable) (rc : RuntimeCache) : RCGetResult :=
  match rcGet rc ca.key ca.maxAge with
  | .ok v => ⟨.ok v, rc, 0⟩
  | .error .noCachedValue =>
      let v := ca.initializer ()
      ⟨.ok v, rcPut rc ca.key v, 1⟩
  | .error .invalidCachedValue =>
      let v := ca.initializer ()
      ⟨.ok v, rcPut rc ca.key v, 1⟩
  | .error .osError => ⟨.error .osError, rc, 0⟩

/-- Result of `Cacheable.get` against a `CacheDirectory`, together with the
number of times the initializer was invoked during the call. -/
structure DirGetResult where
  result : Except CacheErr PyValue
  fs : DirFS
  initCalls : Nat

/-- The except-branch of `Cacheable.get` against a `CacheDirectory`: compute
the value, attempt `cache.put`; a storage error raised by `put` propagates
out of `Cacheable.get` (the `try` only covers `cache.get`). -/
def cacheableDirMiss (ca : Cacheable) (c : CacheDirectory) (fs : DirFS) :
    DirGetResult :=
  let v := ca.initializer ()
  match dirPut c fs ca.key v with
  | .ok fs2 => ⟨.ok v, fs2, 1⟩
  | .error e => ⟨.error e, fs, 1⟩

/-- `Cacheable.get` against a `CacheDirectory`. -/
def Cacheable.getDir (ca : Cacheable) (c : CacheDirectory) (fs : DirFS) :
    DirGetResult :=
  let gr := dirGet c fs ca.key ca.maxAge
  match gr.result with
  | .ok v => ⟨.ok v, gr.fs, 0⟩
  | .error .noCachedValue => cacheableDirMiss ca c gr.fs
  | .error .invalidCachedValue => cacheableDirMiss ca c gr.fs
  | .error .osError => ⟨.error .osError, gr.fs, 0⟩

/-- Uppercase hexadecimal digits, the alphabet of `b16encode` output. -/
def isUpperHexDigit (c : Char) : Bool :=
  (decide ('0' ≤ c) && decide (c ≤ '9')) || (decide ('A' ≤ c) && decide (c ≤ 'F'))

/-! ## Helper lemmas: association lists -/

theorem lookupStr_setStr_self {α : Type} (l : List (String × α)) (k : String) (v : α) :
    lookupStr (setStr l k v) k = some v := by
  induction l with
  | nil => simp [setStr, lookupStr]
  | cons p rest ih =>
      by_cases h : p.1 = k
      · simp [setStr, lookupStr, h]
      · simp only [setStr, lookupStr]
        rw [if_neg h, lookupStr, if_neg h]
        exact ih

theorem lookupStr_eraseStr_self {α : Type} (l : List (String × α)) (k : String) :
    lookupStr (eraseStr l k) k = none := by
  induction l with
  | nil => simp [eraseStr, lookupStr]
  | cons p rest ih =>
      by_cases h : p.1 = k
      · simp only [eraseStr]
        rw [if_pos h]
        exact ih
      · simp only [eraseStr]
        rw [if_neg h, lookupStr, if_neg h]
        exact ih

theorem dirLoad_preserves_env (c : CacheDirectory) (fs : DirFS) (key : String)
    (maxAge : Option Int) :
    (dirLoad c fs key maxAge).fs.writeFails = fs.writeFails ∧
    (dirLoad c fs key maxAge).fs.now = fs.now := by
  cases h : lookupStr fs.files (getPath c key) with
  | none => simp [dirLoad, h]
  | some st =>
      cases st with
      | ioError => simp [dirLoad, h]
      | present content mtime =>
          by_cases hv : dirIsValid fs mtime maxAge = true
          · simp [dirLoad, h, hv]
          · simp [dirLoad, h, hv]

theorem dirGet_fs_eq (c : CacheDirectory) (fs : DirFS) (key : String)
    (maxAge : Option Int) : (dirGet c fs key maxAge).fs = (dirLoad c fs key maxAge).fs := by
  cases h : (dirLoad c fs key maxAge).result with
  | error e => simp [dirGet, h]
  | ok content =>
      cases h2 : limitedDeserialize content c.allowed with
      | error e => simp [dirGet, h, h2]
      | ok v => simp [dirGet, h, h2]

/-! ## Helper lemmas: UTF-8 and base-16 encoding -/

/-- Decoder of one UTF-8 scalar value, used to establish injectivity of the
encoder.  Only its behavior on encoder output matters. -/
def utf8DecodeOne : List Nat → Option (Nat × List Nat)
  | [] => none
  | b0 :: rest =>
    if b0 < 0x80 then some (b0, rest)
    else if b0 < 0xE0 then
      match rest with
      | b1 :: rest2 => some ((b0 - 0xC0) * 64 + (b1 - 0x80), rest2)
      | [] => none
    else if b0 < 0xF0 then
      match rest with
      | b1 :: b2 :: rest2 => some ((b0 - 0xE0) * 4096 + (b1 - 0x80) * 64 + (b2 - 0x80), rest2)
      | _ => none
    else
      match rest with
      | b1 :: b2 :: b3 :: rest2 =>
          some ((b0 - 0xF0) * 262144 + (b1 - 0x80) * 4096 + (b2 - 0x80) * 64 + (b3 - 0x80), rest2)
      | _ => none

theorem char_toNat_lt (c : Char) : c.toNat < 1114112 := by
  have h := c.valid
  rcases h with h | ⟨h1, h2⟩
  · exact Nat.lt_trans h (by norm_num)
  · exact h2

theorem utf8DecodeOne_encode (c : Char) (rest : List Nat) :
    utf8DecodeOne (utf8EncodeChar c ++ rest) = some (c.toNat, rest) := by
  have hlt := char_toNat_lt c
  unfold utf8EncodeChar
  set n := c.toNat with hn
  by_cases h1 : n < 0x80
  · simp only [if_pos h1, List.cons_append, List.nil_append, utf8DecodeOne, if_pos h1]
  · by_cases h2 : n < 0x800
    · simp only [if_neg h1, if_pos h2, List.cons_append, List.nil_append, utf8DecodeOne]
      have : ¬ (0xC0 + n / 64 < 0x80) := by omega
      rw [if_neg this]
      have : 0xC0 + n / 64 < 0xE0 := by omega
      rw [if_pos this]
      congr 1
      congr 1
      omega
    · by_cases h3 : n < 0x10000
      · simp only [if_neg h1, if_neg h2, if_pos h3, List.cons_append, List.nil_append,
          utf8DecodeOne]
        have ha : ¬ (0xE0 + n / 4096 < 0x80) := by omega
        rw [if_neg ha]
        have hb : ¬ (0xE0 + n / 4096 < 0xE0) := by omega
        rw [if_neg hb]
        have hc : 0xE0 + n / 4096 < 0xF0 := by omega
        rw [if_pos hc]
        congr 1
        congr 1
        omega
      · simp only [if_neg h1, if_neg h2, if_neg h3, List.cons_append, List.nil_append,
          utf8DecodeOne]
        have ha : ¬ (0xF0 + n / 262144 < 0x80) := by omega
        rw [if_neg ha]
        have hb : ¬ (0xF0 + n / 262144 < 0xE0) := by omega
        rw [if_neg hb]
        have hc : ¬ (0xF0 + n / 262144 < 0xF0) := by omega
        rw [if_neg hc]
        congr 1
        congr 1
        omega

theorem utf8EncodeChar_ne_nil (c : Char) : utf8EncodeChar c ≠ [] := by
  simp only [utf8EncodeChar]
  split
  · simp
  · split
    · simp
    · split <;> simp

theorem utf8EncodeChar_append_cancel {c1 c2 : Char} {r1 r2 : List Nat}
    (h : utf8EncodeChar c1 ++ r1 = utf8EncodeChar c2 ++ r2) : c1 = c2 ∧ r1 = r2 := by
  have h1 := utf8DecodeOne_encode c1 r1
  have h2 := utf8DecodeOne_encode c2 r2
  rw [h, h2] at h1
  injection h1.symm with h3
  injection h3 with h4 h5
  refine ⟨?_, h5⟩
  have hv : c1.val.toNat = c2.val.toNat := h4
  exact Char.ext (UInt32.ext hv)

theorem utf8Encode_injective : ∀ {l1 l2 : List Char},
    utf8Encode l1 = utf8Encode l2 → l1 = l2 := by
  intro l1
  induction l1 with
  | nil =>
      intro l2 h
      cases l2 with
      | nil => rfl
      | cons c cs =>
          exfalso
          simp only [utf8Encode] at h
          exact utf8EncodeChar_ne_nil c (List.append_eq_nil.mp h.symm).1
  | cons c cs ih =>
      intro l2 h
      cases l2 with
      | nil =>
          exfalso
          simp only [utf8Encode] at h
          exact utf8EncodeChar_ne_nil c (List.append_eq_nil.mp h).1
      | cons d ds =>
          simp only [utf8Encode] at h
          obtain ⟨hc, hr⟩ := utf8EncodeChar_append_cancel h
          rw [hc, ih hr]

theorem utf8EncodeChar_lt_256 (c : Char) : ∀ b ∈ utf8EncodeChar c, b < 256 := by
  have hlt := char_toNat_lt c
  simp only [utf8EncodeChar]
  split
  · intro b hb; simp at hb; omega
  · split
    · intro b hb; simp at hb; rcases hb with h | h <;> omega
    · split
      · intro b hb; simp at hb; rcases hb with h | h | h <;> omega
      · intro b hb; simp at hb; rcases hb with h | h | h | h <;> omega

theorem utf8Encode_lt_256 : ∀ (l : List Char), ∀ b ∈ utf8Encode l, b < 256 := by
  intro l
  induction l with
  | nil => intro b hb; simp [utf8Encode] at hb
  | cons c cs ih =>
      intro b hb
      simp only [utf8Encode, List.mem_append] at hb
      rcases hb with h | h
      · exact utf8EncodeChar_lt_256 c b h
      · exact ih b h

/-- Decimal value of an uppercase hex digit, used to establish injectivity of
`hexDigitChar`. -/
def hexVal (c : Char) : Nat := if c ≤ '9' then c.toNat - 48 else c.toNat - 55

theorem hexVal_hexDigitChar : ∀ n : Nat, n < 16 → hexVal (hexDigitChar n) = n := by
  decide

/-- Characters produced by `hexDigitChar` are uppercase hex digits, are not
the path separator, and are printable ASCII. -/
def isSafeFilenameChar (c : Char) : Bool :=
  isUpperHexDigit c && decide (c ≠ '/') && decide (32 ≤ c.toNat) && decide (c.toNat ≠ 0)

theorem hexDigitChar_safe : ∀ n : Nat, n < 16 → isSafeFilenameChar (hexDigitChar n) = true := by
  decide

theorem b16_injective : ∀ (l1 l2 : List Nat), (∀ b ∈ l1, b < 256) → (∀ b ∈ l2, b < 256) →
    b16encodeBytes l1 = b16encodeBytes l2 → l1 = l2 := by
  intro l1
  induction l1 with
  | nil =>
      intro l2 _ _ h
      cases l2 with
      | nil => rfl
      | cons b bs => simp [b16encodeBytes] at h
  | cons b bs ih =>
      intro l2 hb1 hb2 h
      cases l2 with
      | nil => simp [b16encodeBytes] at h
      | cons d ds =>
          simp only [b16encodeBytes, List.cons.injEq] at h
          obtain ⟨h1, h2, h3⟩ := h
          have hblt := hb1 b (by simp)
          have hdlt := hb2 d (by simp)
          have e1 : b / 16 = d / 16 := by
            have := hexVal_hexDigitChar (b / 16) (by omega)
            rw [h1, hexVal_hexDigitChar (d / 16) (by omega)] at this
            omega
          have e2 : b % 16 = d % 16 := by
            have := hexVal_hexDigitChar (b % 16) (by omega)
            rw [h2, hexVal_hexDigitChar (d % 16) (by omega)] at this
            omega
          have : b = d := by omega
          rw [this, ih ds (fun x hx => hb1 x (by simp [hx])) (fun x hx => hb2 x (by simp [hx])) h3]

theorem b16_safeChars : ∀ (l : List Nat), (∀ b ∈ l, b < 256) →
    ∀ ch ∈ b16encodeBytes l, isSafeFilenameChar ch = true := by
  intro l
  induction l with
  | nil => intro _ ch hch; simp [b16encodeBytes] at hch
  | cons b bs ih =>
      intro hb ch hch
      have hblt := hb b (by simp)
      simp only [b16encodeBytes, List.mem_cons] at hch
      rcases hch with h | h | h
      · rw [h]; exact hexDigitChar_safe (b / 16) (by omega)
      · rw [h]; exact hexDigitChar_safe (b % 16) (by omega)
      · exact ih (fun x hx => hb x (by simp [hx])) ch h

theorem getPath_injective (c : CacheDirectory) {k1 k2 : String}
    (h : getPath c k1 = getPath c k2) : k1 = k2 := by
  unfold getPath at h
  have hd := congrArg String.data h
  simp only [String.data_append] at hd
  rw [List.append_assoc, List.append_assoc] at hd
  have hb : b16encodeBytes (utf8Encode k1.data) = b16encodeBytes (utf8Encode k2.data) :=
    List.append_cancel_left (List.append_cancel_left hd)
  have hu : utf8Encode k1.data = utf8Encode k2.data :=
    b16_injective _ _ (utf8Encode_lt_256 k1.data) (utf8Encode_lt_256 k2.data) hb
  have hk : k1.data = k2.data := utf8Encode_injective hu
  cases k1
  cases k2
  exact congrArg String.mk hk

/-! ## Claim theorems -/

/-- C9: For every `CacheDirectory`, the key-to-path mapping is deterministic
(the same key always maps to the same file path), collision-free (two
different keys never map to the same path), and the produced filename is
filesystem-legal for any input key: every character of the encoded filename
is an uppercase hexadecimal digit, in particular never a path separator and
never a non-printable character. -/
theorem key_path_encoding_props (c : CacheDirectory) (k1 k2 : String)
    (hne : k1 ≠ k2) :
    getPath c k1 ≠ getPath c k2 ∧
    (∀ k k' : String, k = k' → getPath c k = getPath c k') ∧
    (∀ k : String, ∀ ch ∈ b16encodeBytes (utf8Encode k.data),
        isUpperHexDigit ch = true ∧ ch ≠ '/' ∧ 32 ≤ ch.toNat ∧ ch.toNat ≠ 0) := by
  refine ⟨fun h => hne (getPath_injective c h), fun k k' hk => by rw [hk], ?_⟩
  intro k ch hch
  have hsafe := b16_safeChars (utf8Encode k.data) (utf8Encode_lt_256 k.data) ch hch
  simp only [isSafeFilenameChar, Bool.and_eq_true, decide_eq_true_eq] at hsafe
  exact ⟨hsafe.1.1.1, hsafe.1.1.2, hsafe.1.2, hsafe.2⟩

/-- Witness for `key_path_encoding_props` at a concrete directory and the
distinct keys "a" and "b". -/
theorem key_path_encoding_props_witness :
    getPath ⟨"/tmp/cache", none, []⟩ "a" ≠ getPath ⟨"/tmp/cache", none, []⟩ "b" ∧
    (∀ k k' : String, k = k' →
        getPath ⟨"/tmp/cache", none, []⟩ k = getPath ⟨"/tmp/cache", none, []⟩ k') ∧
    (∀ k : String, ∀ ch ∈ b16encodeBytes (utf8Encode k.data),
        isUpperHexDigit ch = true ∧ ch ≠ '/' ∧ 32 ≤ ch.toNat ∧ ch.toNat ≠ 0) :=
  key_path_encoding_props ⟨"/tmp/cache", none, []⟩ "a" "b" (by decide)

/-- C3: For every `CacheDirectory` configured with an allow-list, a stored
payload whose pickle stream references a type outside the allow-list makes
`get` signal `InvalidCachedValueException`; no reconstructed value is
returned. -/
theorem allowlist_rejects_disallowed (c : CacheDirectory) (fs : DirFS)
    (key : String) (v : PyValue) (mt : Nat) (l : List String) (t : String)
    (hallow : c.allowed = some l)
    (hfile : lookupStr fs.files (getPath c key) = some (.present (.pickled v) mt))
    (ht : t ∈ typesOf v) (hdis : t ∉ l) :
    (dirGet c fs key none).result = .error .invalidCachedValue := by
  have hload : dirLoad c fs key none = ⟨.ok (.pickled v), fs, false⟩ := by
    simp [dirLoad, hfile, dirIsValid]
  have hdeser : limitedDeserialize (.pickled v) c.allowed
      = .error .invalidCachedValue := by
    rw [hallow]
    simp only [limitedDeserialize, Option.getD_some]
    rw [if_neg]
    intro hall
    rw [List.all_eq_true] at hall
    exact hdis (of_decide_eq_true (hall t ht))
  simp [dirGet, hload, hdeser]

/-- Witness for `allowlist_rejects_disallowed`: a directory cache allowing
only "int" holds a pickled object of class "Exploit"; `get` signals
invalid. -/
theorem allowlist_rejects_disallowed_witness :
    (dirGet ⟨"/c", some ["int"], []⟩
        ⟨[(getPath ⟨"/c", some ["int"], []⟩ "k",
            .present (.pickled (.obj "Exploit" .pyNone)) 0)], [], 5⟩
        "k" none).result = .error .invalidCachedValue :=
  allowlist_rejects_disallowed ⟨"/c", some ["int"], []⟩ _ "k"
    (.obj "Exploit" .pyNone) 0 ["int"] "Exploit" rfl
    (by rw [lookupStr]; simp)
    (by simp [typesOf]) (by decide)

/-- C5: For every `CacheDirectory.get(key, max_age)` on an existing entry:
with `max_age` given, an entry strictly older than `max_age` is deleted and
a miss is signaled, while a strictly younger entry has its bytes returned
with the filesystem untouched; with `max_age` absent, the entry is treated
as fresh regardless of age. -/
theorem ttl_expiry_behavior (c : CacheDirectory) (fs : DirFS) (key : String)
    (content : Bytes) (mtime : Nat) (m : Int)
    (hfile : lookupStr fs.files (getPath c key) = some (.present content mtime)) :
    ((fs.now : Int) - (mtime : Int) > m →
        (dirGet c fs key (some m)).result = .error .noCachedValue ∧
        lookupStr (dirGet c fs key (some m)).fs.files (getPath c key) = none) ∧
    ((fs.now : Int) - (mtime : Int) < m →
        (dirLoad c fs key (some m)).result = .ok content ∧
        (dirLoad c fs key (some m)).fs = fs) ∧
    (dirLoad c fs key none).result = .ok content := by
  refine ⟨?_, ?_, ?_⟩
  · intro hold
    have hv : dirIsValid fs mtime (some m) = false := by
      simp only [dirIsValid, decide_eq_false_iff_not]
      omega
    have hload : dirLoad c fs key (some m)
        = ⟨.error .noCachedValue,
            { fs with files := eraseStr fs.files (getPath c key) }, false⟩ := by
      simp [dirLoad, hfile, hv]
    constructor
    · simp [dirGet, hload]
    · rw [dirGet_fs_eq, hload]
      exact lookupStr_eraseStr_self fs.files (getPath c key)
  · intro hyoung
    have hv : dirIsValid fs mtime (some m) = true := by
      simp only [dirIsValid, decide_eq_true_eq]
      omega
    constructor <;> simp [dirLoad, hfile, hv]
  · simp [dirLoad, hfile, dirIsValid]

/-- Witness for `ttl_expiry_behavior` at a concrete directory holding one
entry written at time 10 and read at time 25. -/
theorem ttl_expiry_behavior_witness :
    (((25 : Nat) : Int) - ((10 : Nat) : Int) > (5 : Int) →
        (dirGet ⟨"/c", none, []⟩
            ⟨[(getPath ⟨"/c", none, []⟩ "k", .present (.pickled (.int 3)) 10)], [], 25⟩
            "k" (some 5)).result = .error .noCachedValue ∧
        lookupStr (dirGet ⟨"/c", none, []⟩
            ⟨[(getPath ⟨"/c", none, []⟩ "k", .present (.pickled (.int 3)) 10)], [], 25⟩
            "k" (some 5)).fs.files (getPath ⟨"/c", none, []⟩ "k") = none) ∧
    (((25 : Nat) : Int) - ((10 : Nat) : Int) < (5 : Int) →
        (dirLoad ⟨"/c", none, []⟩
            ⟨[(getPath ⟨"/c", none, []⟩ "k", .present (.pickled (.int 3)) 10)], [], 25⟩
            "k" (some 5)).result = .ok (.pickled (.int 3)) ∧
        (dirLoad ⟨"/c", none, []⟩
            ⟨[(getPath ⟨"/c", none, []⟩ "k", .present (.pickled (.int 3)) 10)], [], 25⟩
            "k" (some 5)).fs
          = ⟨[(getPath ⟨"/c", none, []⟩ "k", .present (.pickled (.int 3)) 10)], [], 25⟩) ∧
    (dirLoad ⟨"/c", none, []⟩
        ⟨[(getPath ⟨"/c", none, []⟩ "k", .present (.pickled (.int 3)) 10)], [], 25⟩
        "k" none).result = .ok (.pickled (.int 3)) :=
  ttl_expiry_behavior ⟨"/c", none, []⟩
    ⟨[(getPath ⟨"/c", none, []⟩ "k", .present (.pickled (.int 3)) 10)], [], 25⟩
    "k" (.pickled (.int 3)) 10 5 (by rw [lookupStr]; simp)

/-- C7: `get` on an absent key signals a miss for both backends; for
`CacheDirectory`, a missing file is a silent miss while any other I/O
failure on the read path is logged as unexpected and still degrades to a
miss rather than propagating. -/
theorem read_failures_degrade_to_miss (rc : RuntimeCache) (c : CacheDirectory)
    (fs : DirFS) (key : String) (maxAge : Option Int) :
    (lookupStr rc.items key = none → rcGet rc key maxAge = .error .noCachedValue) ∧
    (lookupStr fs.files (getPath c key) = none →
        (dirGet c fs key maxAge).result = .error .noCachedValue ∧
        (dirGet c fs key maxAge).logged = false) ∧
    (lookupStr fs.files (getPath c key) = some .ioError →
        (dirGet c fs key maxAge).result = .error .noCachedValue ∧
        (dirGet c fs key maxAge).logged = true) := by
  refine ⟨?_, ?_, ?_⟩
  · intro h
    simp [rcGet, rcLoad, h]
  · intro h
    have hload : dirLoad c fs key maxAge = ⟨.error .noCachedValue, fs, false⟩ := by
      simp [dirLoad, h]
    constructor <;> simp [dirGet, hload]
  · intro h
    have hload : dirLoad c fs key maxAge = ⟨.error .noCachedValue, fs, true⟩ := by
      simp [dirLoad, h]
    constructor <;> simp [dirGet, hload]

/-- Witness for `read_failures_degrade_to_miss` at an empty runtime cache
and a filesystem where the key's file raises a non-FileNotFound OSError. -/
theorem read_failures_degrade_to_miss_witness :
    rcGet ⟨[], []⟩ "k" none = .error .noCachedValue ∧
    (dirGet ⟨"/c", none, []⟩ ⟨[(getPath ⟨"/c", none, []⟩ "k", .ioError)], [], 0⟩
        "k" none).result = .error .noCachedValue ∧
    (dirGet ⟨"/c", none, []⟩ ⟨[(getPath ⟨"/c", none, []⟩ "k", .ioError)], [], 0⟩
        "k" none).logged = true ∧
    (dirGet ⟨"/c", none, []⟩ ⟨[], [], 0⟩ "q" none).result = .error .noCachedValue ∧
    (dirGet ⟨"/c", none, []⟩ ⟨[], [], 0⟩ "q" none).logged = false := by
  have h1 := (read_failures_degrade_to_miss ⟨[], []⟩ ⟨"/c", none, []⟩
      ⟨[(getPath ⟨"/c", none, []⟩ "k", .ioError)], [], 0⟩ "k" none)
  have h2 := (read_failures_degrade_to_miss ⟨[], []⟩ ⟨"/c", none, []⟩
      ⟨[], [], 0⟩ "q" none)
  have hio := h1.2.2 (by rw [lookupStr]; simp)
  have habs := h2.2.1 rfl
  exact ⟨h1.1 rfl, hio.1, hio.2, habs.1, habs.2⟩

/-- The except-branch of `Cacheable.get` invokes the initializer exactly
once, whether or not the subsequent `put` succeeds. -/
theorem cacheableDirMiss_initCalls (ca : Cacheable) (c : CacheDirectory)
    (fs : DirFS) : (cacheableDirMiss ca c fs).initCalls = 1 := by
  cases h : dirPut c fs ca.key (ca.initializer ()) with
  | ok fs2 => simp [cacheableDirMiss, h]
  | error e => simp [cacheableDirMiss, h]

/-- C8: Filters registered in the order F1 then F2 are applied in
registration order to every value returned from `get` (which returns
`F2 (F1 raw)`), and are never applied to values passed to `put`: the stored
representation is the unfiltered value, for both backends. -/
theorem filters_in_order_on_get_only (f1 f2 : PyValue → PyValue)
    (rc : RuntimeCache) (c : CacheDirectory) (fs : DirFS) (key : String)
    (v : PyValue) (mt : Nat) (maxAge : Option Int)
    (hrcf : rc.filters = [f1, f2]) (hcf : c.filters = [f1, f2])
    (hitem : lookupStr rc.items key = some v)
    (hfile : lookupStr fs.files (getPath c key) = some (.present (.pickled v) mt))
    (hallow : (typesOf v).all
        (fun t => decide (t ∈ c.allowed.getD defaultSafeTypes)) = true)
    (hw : getPath c key ∉ fs.writeFails) :
    rcGet rc key maxAge = .ok (f2 (f1 v)) ∧
    lookupStr (rcPut rc key v).items key = some v ∧
    (dirGet c fs key none).result = .ok (f2 (f1 v)) ∧
    ∃ fs2, dirPut c fs key v = .ok fs2 ∧
      lookupStr fs2.files (getPath c key) = some (.present (pickleDumps v) fs.now) := by
  refine ⟨?_, ?_, ?_, ?_⟩
  · simp [rcGet, rcLoad, hitem, hrcf, filterValue]
  · exact lookupStr_setStr_self rc.items key v
  · have hload : dirLoad c fs key none = ⟨.ok (.pickled v), fs, false⟩ := by
      simp [dirLoad, hfile, dirIsValid]
    have hdeser : limitedDeserialize (.pickled v) c.allowed = .ok v := by
      simp [limitedDeserialize, hallow]
    simp [dirGet, hload, hdeser, hcf, filterValue]
  · refine ⟨{ fs with files := (setStr fs.files (getPath c key)
        (.present (pickleDumps v) fs.now)) }, ?_, ?_⟩
    · simp [dirPut, dirSave, hw]
    · exact lookupStr_setStr_self fs.files (getPath c key) _

/-- Witness for `filters_in_order_on_get_only` with the observably
non-commuting filters that wrap a value in objects named F1 and F2. -/
theorem filters_in_order_on_get_only_witness :
    rcGet ⟨[fun x => PyValue.obj "F1" x, fun x => PyValue.obj "F2" x],
        [("k", PyValue.int 2)]⟩ "k" none
      = .ok (.obj "F2" (.obj "F1" (.int 2))) ∧
    lookupStr (rcPut ⟨[fun x => PyValue.obj "F1" x, fun x => PyValue.obj "F2" x],
        [("k", PyValue.int 2)]⟩ "k" (PyValue.int 2)).items "k" = some (PyValue.int 2) ∧
    (dirGet ⟨"/c", none, [fun x => PyValue.obj "F1" x, fun x => PyValue.obj "F2" x]⟩
        ⟨[(getPath ⟨"/c", none,
            [fun x => PyValue.obj "F1" x, fun x => PyValue.obj "F2" x]⟩ "k",
            .present (.pickled (.int 2)) 0)], [], 9⟩ "k" none).result
      = .ok (.obj "F2" (.obj "F1" (.int 2))) ∧
    ∃ fs2, dirPut ⟨"/c", none,
        [fun x => PyValue.obj "F1" x, fun x => PyValue.obj "F2" x]⟩
        ⟨[(getPath ⟨"/c", none,
            [fun x => PyValue.obj "F1" x, fun x => PyValue.obj "F2" x]⟩ "k",
            .present (.pickled (.int 2)) 0)], [], 9⟩ "k" (PyValue.int 2) = .ok fs2 ∧
      lookupStr fs2.files (getPath ⟨"/c", none,
          [fun x => PyValue.obj "F1" x, fun x => PyValue.obj "F2" x]⟩ "k")
        = some (.present (pickleDumps (PyValue.int 2)) 9) :=
  filters_in_order_on_get_only (fun x => PyValue.obj "F1" x)
    (fun x => PyValue.obj "F2" x) _ _ _ "k" (PyValue.int 2) 0 none
    rfl rfl (by rw [lookupStr]; simp) (by rw [lookupStr]; simp) (by decide)
    (by simp)

/-- C4 counterexample: against a `CacheDirectory` whose allow-list is
`{"int"}` and an initializer returning a string, the first `Cacheable.get`
populates the cache (the key's file holds the pickled string), yet the
second `Cacheable.get` against the now-populated cache, with no purge or
TTL expiry in between, invokes the initializer once, not zero times: the
stored value fails restricted deserialization, `get` signals invalid, and
the except branch recomputes. -/
theorem second_get_reinvokes_cex :
    (Cacheable.getDir ⟨"k", fun _ => PyValue.str "s", none⟩
        ⟨"/c", some ["int"], []⟩ ⟨[], [], 0⟩).initCalls = 1 ∧
    lookupStr (Cacheable.getDir ⟨"k", fun _ => PyValue.str "s", none⟩
        ⟨"/c", some ["int"], []⟩ ⟨[], [], 0⟩).fs.files
        (getPath ⟨"/c", some ["int"], []⟩ "k")
      = some (.present (.pickled (.str "s")) 0) ∧
    (Cacheable.getDir ⟨"k", fun _ => PyValue.str "s", none⟩
        ⟨"/c", some ["int"], []⟩
        (Cacheable.getDir ⟨"k", fun _ => PyValue.str "s", none⟩
            ⟨"/c", some ["int"], []⟩ ⟨[], [], 0⟩).fs).initCalls ≠ 0 ∧
    (Cacheable.getDir ⟨"k", fun _ => PyValue.str "s", none⟩
        ⟨"/c", some ["int"], []⟩
        (Cacheable.getDir ⟨"k", fun _ => PyValue.str "s", none⟩
            ⟨"/c", some ["int"], []⟩ ⟨[], [], 0⟩).fs).initCalls = 1 := by
  exact ⟨rfl, rfl, by decide, rfl⟩

/-- C4 amended: within one call to `Cacheable.get` the initializer is
invoked at most once, for either backend; it is invoked exactly once when
the backing cache has no entry for the key.  On a second `get` against the
same, now-populated cache (no purge or TTL expiry in between) it is invoked
zero times for `RuntimeCache`, and for `CacheDirectory` provided the first
call's `put` succeeded and the stored value passes restricted
deserialization (its type names are within the allow-list); a stored value
that fails deserialization makes the second call recompute instead. -/
theorem init_at_most_once (ca : Cacheable) (rc : RuntimeCache)
    (c : CacheDirectory) (fs : DirFS) :
    (ca.getRC rc).initCalls ≤ 1 ∧
    (ca.getDir c fs).initCalls ≤ 1 ∧
    (lookupStr rc.items ca.key = none →
        (ca.getRC rc).initCalls = 1 ∧
        (Cacheable.getRC ca (ca.getRC rc).cache).initCalls = 0) ∧
    (lookupStr fs.files (getPath c ca.key) = none →
        (ca.getDir c fs).initCalls = 1 ∧
        (ca.maxAge = none →
         (typesOf (ca.initializer ())).all
             (fun t => decide (t ∈ c.allowed.getD defaultSafeTypes)) = true →
         getPath c ca.key ∉ fs.writeFails →
         (Cacheable.getDir ca c (ca.getDir c fs).fs).initCalls = 0)) := by
  refine ⟨?_, ?_, ?_, ?_⟩
  · rcases h : rcGet rc ca.key ca.maxAge with e | w
    · cases e <;> simp [Cacheable.getRC, h]
    · simp [Cacheable.getRC, h]
  · rcases h : (dirGet c fs ca.key ca.maxAge).result with e | w
    · cases e <;> simp [Cacheable.getDir, h, cacheableDirMiss_initCalls]
    · simp [Cacheable.getDir, h]
  · intro hempty
    have hget1 : rcGet rc ca.key ca.maxAge = .error .noCachedValue := by
      simp [rcGet, rcLoad, hempty]
    have hcache : (ca.getRC rc).cache = rcPut rc ca.key (ca.initializer ()) := by
      simp [Cacheable.getRC, hget1]
    have hget2 : rcGet (rcPut rc ca.key (ca.initializer ())) ca.key ca.maxAge
        = .ok (filterValue rc.filters (ca.initializer ())) := by
      simp [rcGet, rcLoad, rcPut, lookupStr_setStr_self]
    constructor
    · simp [Cacheable.getRC, hget1]
    · rw [hcache]
      simp [Cacheable.getRC, hget2]
  · intro hdirempty
    have hload0 : dirLoad c fs ca.key ca.maxAge
        = ⟨.error .noCachedValue, fs, false⟩ := by
      simp [dirLoad, hdirempty]
    constructor
    · simp [Cacheable.getDir, dirGet, hload0, cacheableDirMiss_initCalls]
    · intro hma hallow hw
      have hput : dirPut c fs ca.key (ca.initializer ())
          = .ok { fs with files := (setStr fs.files (getPath c ca.key)
              (.present (.pickled (ca.initializer ())) fs.now)) } := by
        simp [dirPut, dirSave, pickleDumps, hw]
      have hfirst : ca.getDir c fs
          = ⟨.ok (ca.initializer ()),
              { fs with files := (setStr fs.files (getPath c ca.key)
                  (.present (.pickled (ca.initializer ())) fs.now)) }, 1⟩ := by
        simp [Cacheable.getDir, dirGet, hload0, cacheableDirMiss, hput]
      have hload2 : dirLoad c { fs with files := (setStr fs.files (getPath c ca.key)
            (.present (.pickled (ca.initializer ())) fs.now)) } ca.key ca.maxAge
          = ⟨.ok (.pickled (ca.initializer ())),
              { fs with files := (setStr fs.files (getPath c ca.key)
                  (.present (.pickled (ca.initializer ())) fs.now)) }, false⟩ := by
        rw [hma]
        simp [dirLoad, lookupStr_setStr_self, dirIsValid]
      have hdeser : limitedDeserialize (.pickled (ca.initializer ())) c.allowed
          = .ok (ca.initializer ()) := by
        simp [limitedDeserialize, hallow]
      rw [hfirst]
      simp [Cacheable.getDir, dirGet, hload2, hdeser]

/-- Witness for `init_at_most_once` at concrete empty caches, with every
hypothesis discharged: one invocation on the first call against either
empty backend, zero on the second. -/
theorem init_at_most_once_witness :
    (Cacheable.getRC ⟨"k", fun _ => PyValue.int 5, none⟩ ⟨[], []⟩).initCalls ≤ 1 ∧
    (Cacheable.getDir ⟨"k", fun _ => PyValue.int 5, none⟩ ⟨"/c", none, []⟩
        ⟨[], [], 0⟩).initCalls ≤ 1 ∧
    (Cacheable.getRC ⟨"k", fun _ => PyValue.int 5, none⟩ ⟨[], []⟩).initCalls = 1 ∧
    (Cacheable.getRC ⟨"k", fun _ => PyValue.int 5, none⟩
        (Cacheable.getRC ⟨"k", fun _ => PyValue.int 5, none⟩
            ⟨[], []⟩).cache).initCalls = 0 ∧
    (Cacheable.getDir ⟨"k", fun _ => PyValue.int 5, none⟩ ⟨"/c", none, []⟩
        ⟨[], [], 0⟩).initCalls = 1 ∧
    (Cacheable.getDir ⟨"k", fun _ => PyValue.int 5, none⟩ ⟨"/c", none, []⟩
        (Cacheable.getDir ⟨"k", fun _ => PyValue.int 5, none⟩ ⟨"/c", none, []⟩
            ⟨[], [], 0⟩).fs).initCalls = 0 := by
  have h := init_at_most_once ⟨"k", fun _ => PyValue.int 5, none⟩ ⟨[], []⟩
    ⟨"/c", none, []⟩ ⟨[], [], 0⟩
  have h3 := h.2.2.1 rfl
  have h4 := h.2.2.2 rfl
  exact ⟨h.1, h.2.1, h3.1, h3.2, h4.1, h4.2 rfl (by decide) (by simp)⟩

/-- C1 counterexample: with an empty cache directory whose key file fails on
write, `Cacheable.get` propagates the `OSError` raised by `cache.put`
instead of returning the freshly computed value 7: the `try` in
`Cacheable.get` only covers `cache.get`, and `cache.put` runs inside the
except handler. -/
theorem put_failure_cex :
    (Cacheable.getDir ⟨"k", fun _ => PyValue.int 7, none⟩ ⟨"/c", none, []⟩
        ⟨[], [getPath ⟨"/c", none, []⟩ "k"], 0⟩).result = .error .osError ∧
    (Cacheable.getDir ⟨"k", fun _ => PyValue.int 7, none⟩ ⟨"/c", none, []⟩
        ⟨[], [getPath ⟨"/c", none, []⟩ "k"], 0⟩).result ≠ .ok (PyValue.int 7) := by
  exact ⟨rfl, by decide⟩

/-- C1 amended: when `cache.get` signals a miss or invalid value,
`Cacheable.get` computes the fresh value and calls `cache.put`; if `put`
fails with a storage error, that failure propagates to the caller (the fresh
value is returned only when `put` succeeds). -/
theorem put_failure_propagates (ca : Cacheable) (c : CacheDirectory)
    (fs : DirFS)
    (hmiss : (dirGet c fs ca.key ca.maxAge).result = .error .noCachedValue ∨
        (dirGet c fs ca.key ca.maxAge).result = .error .invalidCachedValue) :
    (getPath c ca.key ∈ fs.writeFails →
        (ca.getDir c fs).result = .error .osError) ∧
    (getPath c ca.key ∉ fs.writeFails →
        (ca.getDir c fs).result = .ok (ca.initializer ())) := by
  have hwf : (dirGet c fs ca.key ca.maxAge).fs.writeFails = fs.writeFails := by
    rw [dirGet_fs_eq]
    exact (dirLoad_preserves_env c fs ca.key ca.maxAge).1
  constructor
  · intro hin
    have hin2 : getPath c ca.key ∈ (dirGet c fs ca.key ca.maxAge).fs.writeFails := by
      rw [hwf]; exact hin
    rcases hmiss with h | h <;>
      simp [Cacheable.getDir, h, cacheableDirMiss, dirPut, dirSave, hin2]
  · intro hout
    have hout2 : getPath c ca.key ∉ (dirGet c fs ca.key ca.maxAge).fs.writeFails := by
      rw [hwf]; exact hout
    rcases hmiss with h | h <;>
      simp [Cacheable.getDir, h, cacheableDirMiss, dirPut, dirSave, hout2]

/-- Witness for `put_failure_propagates` at a concrete empty directory cache
whose only write-failing path is the key's file. -/
theorem put_failure_propagates_witness :
    (getPath ⟨"/c", none, []⟩ "q" ∈ ([getPath ⟨"/c", none, []⟩ "q"] : List String) →
        (Cacheable.getDir ⟨"q", fun _ => PyValue.int 7, none⟩ ⟨"/c", none, []⟩
            ⟨[], [getPath ⟨"/c", none, []⟩ "q"], 0⟩).result = .error .osError) ∧
    (getPath ⟨"/c", none, []⟩ "q" ∉ ([getPath ⟨"/c", none, []⟩ "q"] : List String) →
        (Cacheable.getDir ⟨"q", fun _ => PyValue.int 7, none⟩ ⟨"/c", none, []⟩
            ⟨[], [getPath ⟨"/c", none, []⟩ "q"], 0⟩).result = .ok (PyValue.int 7)) :=
  put_failure_propagates ⟨"q", fun _ => PyValue.int 7, none⟩ ⟨"/c", none, []⟩
    ⟨[], [getPath ⟨"/c", none, []⟩ "q"], 0⟩ (Or.inl rfl)

/-- C2 counterexample: on a `RuntimeCache` with one registered filter, the
first `Cacheable.get` (a miss, so the value comes fresh from the
initializer) returns 0, while the second `Cacheable.get` (a cache hit)
returns the filtered value 1: the caller can distinguish "from cache" from
"freshly computed", because the miss path of `Cacheable.get` returns the
initializer value without passing it through the filter pipeline. -/
theorem hit_vs_fresh_filter_cex :
    (Cacheable.getRC ⟨"k", fun _ => PyValue.int 0, none⟩
        ⟨[fun _ => PyValue.int 1], []⟩).result = .ok (PyValue.int 0) ∧
    (Cacheable.getRC ⟨"k", fun _ => PyValue.int 0, none⟩
        (Cacheable.getRC ⟨"k", fun _ => PyValue.int 0, none⟩
            ⟨[fun _ => PyValue.int 1], []⟩).cache).result = .ok (PyValue.int 1) ∧
    (Cacheable.getRC ⟨"k", fun _ => PyValue.int 0, none⟩
        ⟨[fun _ => PyValue.int 1], []⟩).result ≠
      (Cacheable.getRC ⟨"k", fun _ => PyValue.int 0, none⟩
          (Cacheable.getRC ⟨"k", fun _ => PyValue.int 0, none⟩
              ⟨[fun _ => PyValue.int 1], []⟩).cache).result := by
  exact ⟨rfl, rfl, by decide⟩

/-- C2 amended: for every `Cacheable` and every cache with no registered
filters, the value returned by `Cacheable.get` is the same whether it came
from a cache hit or from invoking the initializer after a miss: starting
from a cache with no entry for the key, the miss-path call and the
subsequent hit-path call against the now-populated cache both return the
initializer's value, for both backends. -/
theorem hit_equals_fresh_unfiltered (ca : Cacheable) (rc : RuntimeCache)
    (c : CacheDirectory) (fs : DirFS)
    (hrf : rc.filters = []) (hcf : c.filters = [])
    (hma : ca.maxAge = none)
    (hrcempty : lookupStr rc.items ca.key = none)
    (hdirempty : lookupStr fs.files (getPath c ca.key) = none)
    (hallow : (typesOf (ca.initializer ())).all
        (fun t => decide (t ∈ c.allowed.getD defaultSafeTypes)) = true)
    (hw : getPath c ca.key ∉ fs.writeFails) :
    ((ca.getRC rc).result = .ok (ca.initializer ()) ∧
     (Cacheable.getRC ca (ca.getRC rc).cache).result = .ok (ca.initializer ())) ∧
    ((ca.getDir c fs).result = .ok (ca.initializer ()) ∧
     (Cacheable.getDir ca c (ca.getDir c fs).fs).result = .ok (ca.initializer ())) := by
  have hget1 : rcGet rc ca.key ca.maxAge = .error .noCachedValue := by
    simp [rcGet, rcLoad, hrcempty]
  have hcache : (ca.getRC rc).cache = rcPut rc ca.key (ca.initializer ()) := by
    simp [Cacheable.getRC, hget1]
  have hget2 : rcGet (rcPut rc ca.key (ca.initializer ())) ca.key ca.maxAge
      = .ok (ca.initializer ()) := by
    simp [rcGet, rcLoad, rcPut, lookupStr_setStr_self, hrf, filterValue]
  have hload0 : dirLoad c fs ca.key ca.maxAge = ⟨.error .noCachedValue, fs, false⟩ := by
    simp [dirLoad, hdirempty]
  have hput : dirPut c fs ca.key (ca.initializer ())
      = .ok { fs with files := (setStr fs.files (getPath c ca.key)
          (.present (.pickled (ca.initializer ())) fs.now)) } := by
    simp [dirPut, dirSave, pickleDumps, hw]
  have hfirst : ca.getDir c fs
      = ⟨.ok (ca.initializer ()),
          { fs with files := (setStr fs.files (getPath c ca.key)
              (.present (.pickled (ca.initializer ())) fs.now)) }, 1⟩ := by
    simp [Cacheable.getDir, dirGet, hload0, cacheableDirMiss, hput]
  have hdeser : limitedDeserialize (.pickled (ca.initializer ())) c.allowed
      = .ok (ca.initializer ()) := by
    simp [limitedDeserialize, hallow]
  have hload2 : dirLoad c { fs with files := (setStr fs.files (getPath c ca.key)
        (.present (.pickled (ca.initializer ())) fs.now)) } ca.key ca.maxAge
      = ⟨.ok (.pickled (ca.initializer ())),
          { fs with files := (setStr fs.files (getPath c ca.key)
              (.present (.pickled (ca.initializer ())) fs.now)) }, false⟩ := by
    rw [hma]
    simp [dirLoad, lookupStr_setStr_self, dirIsValid]
  refine ⟨⟨?_, ?_⟩, ?_, ?_⟩
  · simp [Cacheable.getRC, hget1]
  · rw [hcache]
    simp [Cacheable.getRC, hget2]
  · rw [hfirst]
  · rw [hfirst]
    simp [Cacheable.getDir, dirGet, hload2, hdeser, hcf, filterValue]

/-- Witness for `hit_equals_fresh_unfiltered` at concrete filterless
caches. -/
theorem hit_equals_fresh_unfiltered_witness :
    ((Cacheable.getRC ⟨"k", fun _ => PyValue.str "w", none⟩ ⟨[], []⟩).result
        = .ok (PyValue.str "w") ∧
     (Cacheable.getRC ⟨"k", fun _ => PyValue.str "w", none⟩
        (Cacheable.getRC ⟨"k", fun _ => PyValue.str "w", none⟩
            ⟨[], []⟩).cache).result = .ok (PyValue.str "w")) ∧
    ((Cacheable.getDir ⟨"k", fun _ => PyValue.str "w", none⟩ ⟨"/c", none, []⟩
        ⟨[], [], 3⟩).result = .ok (PyValue.str "w") ∧
     (Cacheable.getDir ⟨"k", fun _ => PyValue.str "w", none⟩ ⟨"/c", none, []⟩
        (Cacheable.getDir ⟨"k", fun _ => PyValue.str "w", none⟩ ⟨"/c", none, []⟩
            ⟨[], [], 3⟩).fs).result = .ok (PyValue.str "w")) :=
  hit_equals_fresh_unfiltered ⟨"k", fun _ => PyValue.str "w", none⟩ ⟨[], []⟩
    ⟨"/c", none, []⟩ ⟨[], [], 3⟩ rfl rfl rfl rfl rfl (by decide) (by simp)

/-- C6 counterexample: on a `RuntimeCache` with one registered filter,
`put("k", 0)` immediately followed by `get("k")` returns the filtered value
1, not a value equal to the stored 0. -/
theorem roundtrip_filter_cex :
    rcGet (rcPut ⟨[fun _ => PyValue.int 1], []⟩ "k" (PyValue.int 0)) "k" none
      = .ok (PyValue.int 1) ∧
    rcGet (rcPut ⟨[fun _ => PyValue.int 1], []⟩ "k" (PyValue.int 0)) "k" none
      ≠ .ok (PyValue.int 0) := by
  exact ⟨rfl, by decide⟩

/-- C6 amended: for all keys K and serializable values V, on a cache with no
registered filters, `put(K, V)` immediately followed by `get(K)` (no
intervening purge, no TTL expiry) returns a value equal to V; for
`RuntimeCache` the returned value is the exact same value that was stored,
with no serialization round trip. -/
theorem put_get_roundtrip_unfiltered (rc : RuntimeCache) (c : CacheDirectory)
    (fs : DirFS) (key : String) (v : PyValue)
    (hrf : rc.filters = []) (hcf : c.filters = [])
    (hallow : (typesOf v).all
        (fun t => decide (t ∈ c.allowed.getD defaultSafeTypes)) = true)
    (hw : getPath c key ∉ fs.writeFails) :
    rcGet (rcPut rc key v) key none = .ok v ∧
    ∃ fs2, dirPut c fs key v = .ok fs2 ∧ (dirGet c fs2 key none).result = .ok v := by
  constructor
  · simp [rcGet, rcLoad, rcPut, lookupStr_setStr_self, hrf, filterValue]
  · refine ⟨{ fs with files := (setStr fs.files (getPath c key)
        (.present (.pickled v) fs.now)) }, ?_, ?_⟩
    · simp [dirPut, dirSave, pickleDumps, hw]
    · have hload : dirLoad c { fs with files := (setStr fs.files (getPath c key)
          (.present (.pickled v) fs.now)) } key none
          = ⟨.ok (.pickled v),
              { fs with files := (setStr fs.files (getPath c key)
                  (.present (.pickled v) fs.now)) }, false⟩ := by
        simp [dirLoad, lookupStr_setStr_self, dirIsValid]
      have hdeser : limitedDeserialize (.pickled v) c.allowed = .ok v := by
        simp [limitedDeserialize, hallow]
      simp [dirGet, hload, hdeser, hcf, filterValue]

/-- Witness for `put_get_roundtrip_unfiltered` at concrete filterless
caches storing the value 42. -/
theorem put_get_roundtrip_unfiltered_witness :
    rcGet (rcPut ⟨[], []⟩ "k" (PyValue.int 42)) "k" none = .ok (PyValue.int 42) ∧
    ∃ fs2, dirPut ⟨"/c", none, []⟩ ⟨[], [], 8⟩ "k" (PyValue.int 42) = .ok fs2 ∧
      (dirGet ⟨"/c", none, []⟩ fs2 "k" none).result = .ok (PyValue.int 42) :=
  put_get_roundtrip_unfiltered ⟨[], []⟩ ⟨"/c", none, []⟩ ⟨[], [], 8⟩ "k"
    (PyValue.int 42) rfl rfl (by decide) (by simp)

end Wordfence
